import Mathlib

/-!
Verification of the booking conflict-detection and availability engine of a
Django booking backend (apps `bookings` and `users`).

Shallow embedding conventions:
* calendar dates are `Nat` (days on an abstract axis); times of day are `Nat`
  minutes since midnight; the ambient clock (`timezone.now().date()`) is an
  explicit `today : Nat` argument;
* the database is a `DB` record holding the resource and booking tables as
  lists in insertion order (Django querysets iterate rows; `filter` keeps
  order, `order_by` sorts);
* Django REST framework raises serializer `ValidationError`s during
  `is_valid`, and `Model.full_clean` raises model `ValidationError`s during
  `save`; both are modelled as `Except BError DB` results.  DRF runs
  field-level validation (`validate_<field>` and relation existence, in field
  declaration order) before the object-level `validate`; a stage that fails
  collects its field errors together and later stages never run — here each
  stage reports its first error in field order.
-/

namespace BookingEngine

/-- Status enumeration from `Booking.STATUS_CHOICES` in `bookings/models.py`. -/
inductive Status where
  | pending
  | confirmed
  | cancelled
  | completed
deriving DecidableEq, Repr

/-- Membership test for `status__in=['PENDING', 'CONFIRMED']`, the statuses
that hold a slot ("active" bookings). -/
def isActive : Status → Bool
  | .pending => true
  | .confirmed => true
  | .cancelled => false
  | .completed => false

/-- Resource row (`Resource` model): identity plus the fields the booking
engine reads.  `isAvailable` is the `is_available` boolean gate. -/
structure Resource where
  id : Nat
  name : String
  isAvailable : Bool
deriving DecidableEq, Repr

/-- Booking row (`Booking` model).  `userId`/`resourceId` are the foreign
keys, `bookingDate` the calendar date, `startTime`/`endTime` minutes since
midnight, `notes`/`adminNotes` the two free-text fields. -/
structure Booking where
  id : Nat
  userId : Nat
  resourceId : Nat
  bookingDate : Nat
  startTime : Nat
  endTime : Nat
  status : Status
  notes : String
  adminNotes : String
deriving DecidableEq, Repr

/-- Database state: the `resources` and `bookings` tables. -/
structure DB where
  resources : List Resource
  bookings : List Booking
deriving DecidableEq, Repr

/-- Half-open interval overlap test on raw times, the formula
`self.start_time < booking.end_time and self.end_time > booking.start_time`
inlined identically in `Booking.is_conflicting`,
`BookingCreateSerializer.validate` and `BookingUpdateSerializer.validate`. -/
def timesOverlap (s1 e1 s2 e2 : Nat) : Bool :=
  decide (s1 < e2) && decide (e1 > s2)

/-- Interval in the sense of the spec's Overlap Checker contract:
`(date, start, end)` on one resource. -/
structure Interval where
  date : Nat
  startTime : Nat
  endTime : Nat
deriving DecidableEq, Repr

/-- The Overlap Checker: two intervals conflict when their time spans
overlap (the engine only ever compares intervals on the same resource and
date, enforced by the queryset filters). -/
def overlaps (a b : Interval) : Bool :=
  timesOverlap a.startTime a.endTime b.startTime b.endTime

/-- Primary-key lookup in the resources table
(`Resource.objects.get(pk=...)` / the `resource` PK related field). -/
def findResource (db : DB) (rid : Nat) : Option Resource :=
  db.resources.find? (fun r => r.id == rid)

/-- Primary-key lookup in the bookings table (`self.get_object()`). -/
def findBooking (db : DB) (pk : Nat) : Option Booking :=
  db.bookings.find? (fun b => b.id == pk)

/-- Predicate an existing booking must satisfy to conflict with a candidate
interval `(resId, date, s, e)`: the queryset filter
(`resource=..., booking_date=..., status__in=['PENDING','CONFIRMED']`,
optionally `.exclude(pk=...)`) combined with the overlap test of the
scan loop. -/
def conflictsWith (resId date s e : Nat) (excl : Option Nat) (b : Booking) : Bool :=
  b.resourceId == resId && b.bookingDate == date && isActive b.status &&
    (match excl with
     | some pk => b.id != pk
     | none => true) &&
    timesOverlap s e b.startTime b.endTime

/-- First existing booking that conflicts with the candidate interval, if
any: the serializer `for booking in conflicting_bookings` loop raises on the
first overlapping row in table order. -/
def findConflict (db : DB) (resId date s e : Nat) (excl : Option Nat) : Option Booking :=
  db.bookings.find? (conflictsWith resId date s e excl)

/-- Error keys raised by `Booking.clean` (`end_time`, `booking_date`,
`resource`). -/
inductive CleanError where
  | endNotAfterStart
  | pastDate
  | resourceNotAvailable
deriving DecidableEq, Repr

/-- Error taxonomy of the engine as surfaced to callers: serializer
validation errors (`invalidInterval` … `slotConflict`, the latter carrying
the conflicting booking's interval), the cancel guard (`illegalTransition`),
the availability view's date-parse failure (`invalidDate`), and
`modelValidation` for a `django.core.exceptions.ValidationError` escaping
`Booking.full_clean` inside `save`. -/
inductive BError where
  | invalidInterval
  | pastDate
  | notFound
  | resourceUnavailable
  | slotConflict (s e : Nat)
  | illegalTransition
  | invalidDate
  | modelValidation (errs : List CleanError)
deriving DecidableEq, Repr

/-- `Booking.clean` from `bookings/models.py`: collects an error per offending
field — `end_time <= start_time`, `booking_date < today`, resource not
available (a dangling foreign key cannot occur under Django and is reported
as the resource error here). -/
def clean (db : DB) (today : Nat) (b : Booking) : List CleanError :=
  (if b.endTime ≤ b.startTime then [CleanError.endNotAfterStart] else []) ++
    (if b.bookingDate < today then [CleanError.pastDate] else []) ++
    (if (match findResource db b.resourceId with
         | some r => !r.isAvailable
         | none => true) then [CleanError.resourceNotAvailable] else [])

/-- Row update by primary key: Django `save()` on an instance with a pk
overwrites that row in place. -/
def upsert (bs : List Booking) (b : Booking) : List Booking :=
  bs.map (fun x => if x.id == b.id then b else x)

/-- `Booking.save` for a fresh row: `full_clean` (raising `modelValidation`
on any clean error) then insert. -/
def saveNew (db : DB) (today : Nat) (b : Booking) : Except BError DB :=
  let errs := clean db today b
  if errs.isEmpty then .ok { db with bookings := db.bookings ++ [b] }
  else .error (.modelValidation errs)

/-- `Booking.save` for an existing row: `full_clean` then overwrite the row. -/
def saveExisting (db : DB) (today : Nat) (b : Booking) : Except BError DB :=
  let errs := clean db today b
  if errs.isEmpty then .ok { db with bookings := upsert db.bookings b }
  else .error (.modelValidation errs)

/-- Booking the create path persists: all serializer fields plus
`user=self.request.user` from `perform_create`, default status `PENDING`. -/
def mkBooking (newId userId resId date s e : Nat) (notes : String) : Booking :=
  { id := newId, userId := userId, resourceId := resId, bookingDate := date,
    startTime := s, endTime := e, status := .pending, notes := notes,
    adminNotes := "" }

/-- The create operation: `BookingCreateSerializer` validation followed by
`perform_create` → `save`.  DRF field stage first (resource PK existence,
then `validate_booking_date`'s `date < today` check, in field order), then
the object-level `validate`: interval sanity, resource availability, and the
conflict scan over active bookings on the same resource and date, whose
first hit raises `slotConflict` carrying that booking's interval. -/
def createBooking (db : DB) (today newId userId resId date s e : Nat)
    (notes : String) : Except BError DB :=
  match findResource db resId with
  | none => .error .notFound
  | some r =>
    if date < today then .error .pastDate
    else if e ≤ s then .error .invalidInterval
    else if !r.isAvailable then .error .resourceUnavailable
    else
      match findConflict db resId date s e none with
      | some cb => .error (.slotConflict cb.startTime cb.endTime)
      | none => saveNew db today (mkBooking newId userId resId date s e notes)

/-- The update operation: `BookingUpdateSerializer.validate` (defaults taken
from the instance for absent fields, interval sanity, conflict scan
excluding the instance's pk) followed by `save` on the instance.  The
serializer's field list omits `resource` and `user`, so those are fixed. -/
def updateBooking (db : DB) (today pk : Nat) (newDate newStart newEnd : Option Nat)
    (newNotes : Option String) : Except BError DB :=
  match findBooking db pk with
  | none => .error .notFound
  | some inst =>
    let date := newDate.getD inst.bookingDate
    let s := newStart.getD inst.startTime
    let e := newEnd.getD inst.endTime
    if e ≤ s then .error .invalidInterval
    else
      match findConflict db inst.resourceId date s e (some pk) with
      | some cb => .error (.slotConflict cb.startTime cb.endTime)
      | none =>
        saveExisting db today
          { inst with bookingDate := date, startTime := s, endTime := e,
                      notes := newNotes.getD inst.notes }

/-- The cancel action (`BookingViewSet.cancel`): rejected when the status is
already `CANCELLED` or `COMPLETED`, otherwise sets status to `CANCELLED` and
saves (which re-runs `full_clean`). -/
def cancelBooking (db : DB) (today pk : Nat) : Except BError DB :=
  match findBooking db pk with
  | none => .error .notFound
  | some b =>
    if b.status == .cancelled || b.status == .completed then
      .error .illegalTransition
    else saveExisting db today { b with status := .cancelled }

/-- The admin status update (`BookingViewSet.update_status` with
`BookingStatusSerializer`): no transition check of any kind; writes the
requested status and admin notes and saves (which re-runs `full_clean`). -/
def setStatus (db : DB) (today pk : Nat) (newStatus : Status)
    (anotes : String) : Except BError DB :=
  match findBooking db pk with
  | none => .error .notFound
  | some b => saveExisting db today { b with status := newStatus, adminNotes := anotes }

/-- Active bookings for one `(resource, date)` key, in table order: the
availability view's queryset before `order_by`. -/
def activeBookingsFor (db : DB) (resId date : Nat) : List Booking :=
  db.bookings.filter
    (fun b => b.resourceId == resId && b.bookingDate == date && isActive b.status)

/-- Ordering used by `order_by('start_time')`. -/
def slotOrder (a b : Booking) : Prop :=
  a.startTime ≤ b.startTime

instance : DecidableRel slotOrder := fun a b => Nat.decLe a.startTime b.startTime

instance : IsTotal Booking slotOrder := ⟨fun a b => Nat.le_total a.startTime b.startTime⟩

instance : IsTrans Booking slotOrder := ⟨fun _ _ _ => Nat.le_trans⟩

/-- Busy-slot list of the availability view: active bookings for the key,
sorted ascending by start time (a stable sort, like the database's), each
rendered as its `(start, end)` pair. -/
def bookedList (db : DB) (resId date : Nat) : List (Nat × Nat) :=
  (List.insertionSort slotOrder (activeBookingsFor db resId date)).map
    (fun b => (b.startTime, b.endTime))

/-- Response payload of `BookingAvailabilityView.get`. -/
structure AvailabilityInfo where
  resourceId : Nat
  isAvailable : Bool
  bookedSlots : List (Nat × Nat)
deriving DecidableEq, Repr

/-- The availability query (`BookingAvailabilityView.get`) after date
parsing: resource lookup (404 when absent), then the read-only busy-slot
computation.  It takes the database and returns only a payload — no state
mutation. -/
def queryAvailability (db : DB) (resId date : Nat) : Except BError AvailabilityInfo :=
  match findResource db resId with
  | none => .error .notFound
  | some r =>
    .ok { resourceId := r.id, isAvailable := r.isAvailable,
          bookedSlots := bookedList db resId date }

/-- The no-double-booking invariant: no two distinct active bookings on the
same resource and date overlap. -/
def noDouble (db : DB) : Prop :=
  ∀ b1 ∈ db.bookings, ∀ b2 ∈ db.bookings,
    b1.id ≠ b2.id → b1.resourceId = b2.resourceId →
    b1.bookingDate = b2.bookingDate →
    isActive b1.status = true → isActive b2.status = true →
    timesOverlap b1.startTime b1.endTime b2.startTime b2.endTime = false

instance (db : DB) : Decidable (noDouble db) := by
  unfold noDouble
  exact List.decidableBAll _ _

def resourceAvailableIn (db : DB) (rid : Nat) : Bool :=
  match findResource db rid with
  | some r => r.isAvailable
  | none => false

def c2db0 : DB :=
  { resources := [⟨1, "Room", true⟩], bookings := [] }

def c2db1 : DB :=
  { resources := [⟨1, "Room", true⟩],
    bookings := [⟨1, 7, 1, 0, 540, 600, .pending, "", ""⟩] }

def c2db2 : DB :=
  { resources := [⟨1, "Room", true⟩],
    bookings := [⟨1, 7, 1, 0, 540, 600, .cancelled, "", ""⟩] }

def c2db3 : DB :=
  { resources := [⟨1, "Room", true⟩],
    bookings := [⟨1, 7, 1, 0, 540, 600, .cancelled, "", ""⟩,
                 ⟨2, 7, 1, 0, 540, 600, .pending, "", ""⟩] }

def c2db4 : DB :=
  { resources := [⟨1, "Room", true⟩],
    bookings := [⟨1, 7, 1, 0, 540, 600, .confirmed, "", ""⟩,
                 ⟨2, 7, 1, 0, 540, 600, .pending, "", ""⟩] }

def c3db : DB :=
  { resources := [⟨1, "Room", true⟩],
    bookings := [⟨1, 7, 1, 0, 540, 600, .pending, "", ""⟩] }

def c4db : DB :=
  { resources := [⟨1, "Room", true⟩],
    bookings := [⟨1, 7, 1, 0, 600, 660, .pending, "", ""⟩,
                 ⟨2, 7, 1, 0, 540, 600, .confirmed, "", ""⟩,
                 ⟨3, 7, 1, 0, 300, 360, .cancelled, "", ""⟩] }

def c5b : Booking :=
  ⟨1, 7, 1, 9, 540, 600, .pending, "", ""⟩

def c5db : DB :=
  { resources := [⟨1, "Room", true⟩], bookings := [c5b] }

def c6b : Booking :=
  ⟨1, 7, 1, 5, 540, 600, .pending, "", ""⟩

def c6db : DB :=
  { resources := [⟨1, "Room", true⟩],
    bookings := [c6b, ⟨2, 7, 1, 5, 600, 660, .confirmed, "", ""⟩] }

def c7db : DB :=
  { resources := [⟨1, "Room", true⟩], bookings := [] }

def c8b : Booking :=
  ⟨1, 7, 1, 3, 540, 600, .pending, "", ""⟩

def c8db : DB :=
  { resources := [⟨1, "Room", true⟩], bookings := [c8b] }

def c9b : Booking :=
  ⟨1, 7, 1, 0, 540, 600, .pending, "", ""⟩

def c9db : DB :=
  { resources := [⟨1, "Room", true⟩], bookings := [c9b] }

def c10db : DB :=
  { resources := [⟨1, "Room", true⟩], bookings := [] }

theorem timesOverlap_symm (s1 e1 s2 e2 : Nat) :
    timesOverlap s1 e1 s2 e2 = timesOverlap s2 e2 s1 e1 := by
  simp only [timesOverlap]
  exact Bool.and_comm _ _

theorem mem_upsert {bs : List Booking} {nb x : Booking} (hx : x ∈ upsert bs nb) :
    x = nb ∨ (x ∈ bs ∧ (x.id == nb.id) = false) := by
  unfold upsert at hx
  obtain ⟨y, hy, hfy⟩ := List.mem_map.mp hx
  by_cases h : (y.id == nb.id) = true
  · rw [if_pos h] at hfy
    exact Or.inl hfy.symm
  · rw [if_neg h] at hfy
    subst hfy
    exact Or.inr ⟨hy, by simpa using h⟩

theorem conflictsWith_false_mem {db : DB} {resId date s e : Nat} {excl : Option Nat}
    (h : findConflict db resId date s e excl = none) :
    ∀ b ∈ db.bookings, conflictsWith resId date s e excl b = false := by
  intro b hb
  have := List.find?_eq_none.mp h b hb
  simpa using this

theorem findBooking_some {db : DB} {pk : Nat} {b : Booking}
    (h : findBooking db pk = some b) : b.id = pk ∧ b ∈ db.bookings := by
  refine ⟨?_, List.mem_of_find?_eq_some h⟩
  have := List.find?_some h
  simpa using this

theorem find?_upsert {bs : List Booking} {pk : Nat} {b nb : Booking}
    (h : bs.find? (fun x => x.id == pk) = some b) (hid : nb.id = b.id) :
    (upsert bs nb).find? (fun x => x.id == pk) = some nb := by
  induction bs with
  | nil => simp at h
  | cons y ys ih =>
    unfold upsert
    simp only [List.map_cons]
    by_cases hy : (y.id == pk) = true
    · simp only [List.find?_cons, hy, if_true] at h
      have hby : b = y := by simpa using h.symm
      have hyn : (y.id == nb.id) = true := by
        simp [hid, hby]
      rw [if_pos hyn]
      have hnpk : (nb.id == pk) = true := by
        simp only [beq_iff_eq] at hy ⊢
        rw [hid, hby, hy]
      simp [List.find?_cons, hnpk]
    · simp only [List.find?_cons, hy, if_false] at h
      have hbpk : (b.id == pk) = true := by simpa using List.find?_some h
      have hyn : (y.id == nb.id) = false := by
        rw [hid]
        simp only [beq_eq_false_iff_ne, ne_eq]
        simp only [beq_iff_eq] at hy hbpk
        intro hcontra
        exact hy (by rw [hcontra, hbpk])
      rw [if_neg (by simp [hyn])]
      simp only [List.find?_cons, hy, if_false]
      exact ih h

theorem findBooking_after_upsert {db : DB} {pk : Nat} {b nb : Booking}
    (h : findBooking db pk = some b) (hid : nb.id = b.id) :
    findBooking { db with bookings := upsert db.bookings nb } pk = some nb :=
  find?_upsert h hid

theorem self_mem_upsert {bs : List Booking} {b nb : Booking}
    (hb : b ∈ bs) (hid : nb.id = b.id) : nb ∈ upsert bs nb := by
  unfold upsert
  exact List.mem_map.mpr ⟨b, hb, by simp [hid]⟩

theorem clean_nil_iff (db : DB) (today : Nat) (b : Booking) :
    clean db today b = [] ↔
      (b.startTime < b.endTime ∧ today ≤ b.bookingDate ∧
        resourceAvailableIn db b.resourceId = true) := by
  unfold clean resourceAvailableIn
  cases findResource db b.resourceId with
  | none => split_ifs <;> simp_all
  | some r => split_ifs <;> simp_all

theorem create_preserves (db : DB) (today newId uid resId date s e : Nat)
    (notes : String) (db' : DB) (hinv : noDouble db)
    (hok : createBooking db today newId uid resId date s e notes = .ok db') :
    noDouble db' := by
  cases hres : findResource db resId with
  | none => simp [createBooking, hres] at hok
  | some r =>
    simp only [createBooking, hres] at hok
    split_ifs at hok
    cases hconf : findConflict db resId date s e none with
    | some cb => rw [hconf] at hok; simp at hok
    | none =>
      rw [hconf] at hok
      simp only [saveNew] at hok
      split_ifs at hok
      simp only [Except.ok.injEq] at hok
      subst hok
      intro b1 hb1 b2 hb2 hne hr hd ha1 ha2
      simp only [List.mem_append, List.mem_singleton] at hb1 hb2
      have hcw := conflictsWith_false_mem hconf
      rcases hb1 with hb1 | hb1 <;> rcases hb2 with hb2 | hb2
      · exact hinv b1 hb1 b2 hb2 hne hr hd ha1 ha2
      · -- b2 is the new booking
        subst hb2
        have hr2 : b1.resourceId = resId := by simpa [mkBooking] using hr
        have hd2 : b1.bookingDate = date := by simpa [mkBooking] using hd
        have := hcw b1 hb1
        simp [conflictsWith, hr2, hd2, ha1] at this
        rw [show (mkBooking newId uid resId date s e notes).startTime = s from rfl,
            show (mkBooking newId uid resId date s e notes).endTime = e from rfl,
            timesOverlap_symm]
        exact this
      · -- b1 is the new booking
        subst hb1
        have hr2 : b2.resourceId = resId := by simpa [mkBooking] using hr.symm
        have hd2 : b2.bookingDate = date := by simpa [mkBooking] using hd.symm
        have := hcw b2 hb2
        simp [conflictsWith, hr2, hd2, ha2] at this
        exact this
      · subst hb1; subst hb2; exact absurd rfl hne

theorem update_preserves (db : DB) (today pk : Nat) (nd ns ne : Option Nat)
    (nn : Option String) (db' : DB) (hinv : noDouble db)
    (hok : updateBooking db today pk nd ns ne nn = .ok db') : noDouble db' := by
  cases hfb : findBooking db pk with
  | none => simp [updateBooking, hfb] at hok
  | some inst =>
    obtain ⟨hid, _⟩ := findBooking_some hfb
    simp only [updateBooking, hfb] at hok
    split_ifs at hok
    cases hconf : findConflict db inst.resourceId (nd.getD inst.bookingDate)
        (ns.getD inst.startTime) (ne.getD inst.endTime) (some pk) with
    | some cb => rw [hconf] at hok; simp at hok
    | none =>
      rw [hconf] at hok
      simp only [saveExisting] at hok
      split_ifs at hok
      simp only [Except.ok.injEq] at hok
      subst hok
      intro b1 hb1 b2 hb2 hne hr hd ha1 ha2
      have hcw := conflictsWith_false_mem hconf
      rcases mem_upsert hb1 with hb1 | ⟨hb1, hne1⟩ <;>
        rcases mem_upsert hb2 with hb2 | ⟨hb2, hne2⟩
      · subst hb1; subst hb2; exact absurd rfl hne
      · -- b1 is the updated row, b2 an untouched row
        subst hb1
        have hne2' : (b2.id != pk) = true := by
          simp only [bne_iff_ne]
          intro hcontra
          simp [hcontra, hid] at hne2
        have hr2 : b2.resourceId = inst.resourceId := by simpa using hr.symm
        have hd2 : b2.bookingDate = nd.getD inst.bookingDate := by simpa using hd.symm
        have := hcw b2 hb2
        simp [conflictsWith, hr2, hd2, ha2, hne2'] at this
        simpa using this
      · -- b2 is the updated row, b1 an untouched row
        subst hb2
        have hne1' : (b1.id != pk) = true := by
          simp only [bne_iff_ne]
          intro hcontra
          simp [hcontra, hid] at hne1
        have hr2 : b1.resourceId = inst.resourceId := by simpa using hr
        have hd2 : b1.bookingDate = nd.getD inst.bookingDate := by simpa using hd
        have := hcw b1 hb1
        simp [conflictsWith, hr2, hd2, ha1, hne1'] at this
        rw [timesOverlap_symm]
        simpa using this
      · exact hinv b1 hb1 b2 hb2 hne hr hd ha1 ha2

theorem cancel_preserves (db : DB) (today pk : Nat) (db' : DB)
    (hinv : noDouble db) (hok : cancelBooking db today pk = .ok db') :
    noDouble db' := by
  cases hfb : findBooking db pk with
  | none => simp [cancelBooking, hfb] at hok
  | some b =>
    simp only [cancelBooking, hfb] at hok
    split_ifs at hok
    simp only [saveExisting] at hok
    split_ifs at hok
    simp only [Except.ok.injEq] at hok
    subst hok
    intro b1 hb1 b2 hb2 hne hr hd ha1 ha2
    rcases mem_upsert hb1 with hb1 | ⟨hb1, _⟩ <;>
      rcases mem_upsert hb2 with hb2 | ⟨hb2, _⟩
    · subst hb1; simp [isActive] at ha1
    · subst hb1; simp [isActive] at ha1
    · subst hb2; simp [isActive] at ha2
    · exact hinv b1 hb1 b2 hb2 hne hr hd ha1 ha2

theorem updateBooking_reduce (db : DB) (today pk : Nat) (b : Booking)
    (hb : findBooking db pk = some b) (d s e : Nat) :
    updateBooking db today pk (some d) (some s) (some e) none =
      if e ≤ s then .error .invalidInterval
      else
        match findConflict db b.resourceId d s e (some pk) with
        | some cb => .error (.slotConflict cb.startTime cb.endTime)
        | none =>
          saveExisting db today { b with bookingDate := d, startTime := s, endTime := e } := by
  simp [updateBooking, hb]

/-- C1: the conflict test on two intervals of the same resource and date
returns true exactly when `a.start < b.end` and `a.end > b.start`; it is
symmetric, and adjacent intervals (`a.end = b.start`) never conflict. -/
theorem c1_overlap_checker (a b : Interval) :
    (overlaps a b = true ↔ (a.startTime < b.endTime ∧ a.endTime > b.startTime)) ∧
    overlaps a b = overlaps b a ∧
    (a.endTime = b.startTime → overlaps a b = false) := by
  refine ⟨?_, ?_, ?_⟩
  · simp [overlaps, timesOverlap]
  · simp only [overlaps, timesOverlap]
    exact Bool.and_comm _ _
  · intro h
    simp [overlaps, timesOverlap, h]

theorem c1_overlap_checker_witness :
    overlaps ⟨0, 540, 600⟩ ⟨0, 600, 660⟩ = false :=
  (c1_overlap_checker ⟨0, 540, 600⟩ ⟨0, 600, 660⟩).2.2 rfl

/-- C2 (amended): the no-double-booking invariant is preserved by create,
update and cancel, but not by the admin status update, which re-runs no
conflict scan and can re-activate a cancelled booking into an occupied
slot. -/
theorem c2_invariant_preserved_except_setStatus :
    (∀ db today newId uid resId date s e notes db', noDouble db →
      createBooking db today newId uid resId date s e notes = .ok db' →
      noDouble db') ∧
    (∀ db today pk nd ns ne nn db', noDouble db →
      updateBooking db today pk nd ns ne nn = .ok db' → noDouble db') ∧
    (∀ db today pk db', noDouble db →
      cancelBooking db today pk = .ok db' → noDouble db') :=
  ⟨fun db today newId uid resId date s e notes db' hinv hok =>
      create_preserves db today newId uid resId date s e notes db' hinv hok,
   fun db today pk nd ns ne nn db' hinv hok =>
      update_preserves db today pk nd ns ne nn db' hinv hok,
   fun db today pk db' hinv hok => cancel_preserves db today pk db' hinv hok⟩

theorem c2_invariant_preserved_except_setStatus_witness :
    noDouble c2db1 :=
  c2_invariant_preserved_except_setStatus.1 c2db0 0 1 7 1 0 540 600 "" c2db1
    (by decide) rfl

/-- C2 counterexample: from the empty database, create a booking, cancel it,
create a second booking in the same slot, then have the admin set the first
back to `CONFIRMED`; every step succeeds and the resulting state holds two
overlapping active bookings on the same resource and date, so the invariant
is not preserved by every operation. -/
theorem c2_setStatus_breaks_invariant :
    createBooking c2db0 0 1 7 1 0 540 600 "" = .ok c2db1 ∧
    cancelBooking c2db1 0 1 = .ok c2db2 ∧
    createBooking c2db2 0 2 7 1 0 540 600 "" = .ok c2db3 ∧
    setStatus c2db3 0 1 .confirmed ("") = .ok c2db4 ∧
    noDouble c2db3 ∧ ¬ noDouble c2db4 :=
  ⟨rfl, rfl, rfl, rfl, by decide, by decide⟩

/-- C3: for a request with a sane interval, a non-past date and an existing,
available resource, create fails with `slotConflict` exactly when some
active booking on the same resource and date overlaps the candidate
interval; the error carries the conflicting booking's interval, and
otherwise the booking is persisted with status `PENDING`. -/
theorem c3_create_conflict_characterization (db : DB)
    (today newId uid resId date s e : Nat) (notes : String) (r : Resource)
    (h1 : s < e) (h2 : today ≤ date) (h3 : findResource db resId = some r)
    (h4 : r.isAvailable = true) :
    ((∃ cb ∈ db.bookings, conflictsWith resId date s e none cb = true) ↔
      ∃ cs ce, createBooking db today newId uid resId date s e notes =
        .error (.slotConflict cs ce)) ∧
    (∀ cb, findConflict db resId date s e none = some cb →
      createBooking db today newId uid resId date s e notes =
        .error (.slotConflict cb.startTime cb.endTime) ∧
      cb ∈ db.bookings ∧ conflictsWith resId date s e none cb = true) ∧
    (findConflict db resId date s e none = none →
      createBooking db today newId uid resId date s e notes =
        .ok { db with bookings :=
                db.bookings ++ [mkBooking newId uid resId date s e notes] } ∧
      (mkBooking newId uid resId date s e notes).status = .pending) := by
  have hred : createBooking db today newId uid resId date s e notes =
      (match findConflict db resId date s e none with
       | some cb => .error (.slotConflict cb.startTime cb.endTime)
       | none => saveNew db today (mkBooking newId uid resId date s e notes)) := by
    simp only [createBooking, h3]
    rw [if_neg (by omega), if_neg (by omega), if_neg (by simp [h4])]
  have hclean : clean db today (mkBooking newId uid resId date s e notes) = [] := by
    rw [clean_nil_iff]
    exact ⟨h1, h2, by simp [resourceAvailableIn, mkBooking, h3, h4]⟩
  refine ⟨⟨?_, ?_⟩, ?_, ?_⟩
  · rintro ⟨cb, hmem, hcw⟩
    cases hc : findConflict db resId date s e none with
    | none => exact absurd hcw (by simp [conflictsWith_false_mem hc cb hmem])
    | some cb' => exact ⟨cb'.startTime, cb'.endTime, by rw [hred, hc]⟩
  · rintro ⟨cs, ce, hcr⟩
    cases hc : findConflict db resId date s e none with
    | none =>
      rw [hred, hc] at hcr
      simp [saveNew, hclean] at hcr
    | some cb' =>
      exact ⟨cb', List.mem_of_find?_eq_some hc, List.find?_some hc⟩
  · intro cb hc
    exact ⟨by rw [hred, hc], List.mem_of_find?_eq_some hc, List.find?_some hc⟩
  · intro hc
    rw [hred, hc]
    exact ⟨by simp [saveNew, hclean], rfl⟩

theorem c3_create_conflict_characterization_witness :
    createBooking c3db 0 2 7 1 0 600 660 "" =
      .ok { c3db with bookings := c3db.bookings ++ [mkBooking 2 7 1 0 600 660 ""] } ∧
    (mkBooking 2 7 1 0 600 660 "").status = .pending :=
  (c3_create_conflict_characterization c3db 0 2 7 1 0 600 660 "" ⟨1, "Room", true⟩
    (by decide) (by decide) rfl rfl).2.2 rfl

/-- C4: for an existing resource, the availability query returns, without
mutating any state, exactly the intervals of the active (Pending or
Confirmed) bookings for that resource and date, sorted ascending by start
time. -/
theorem c4_availability_busy_slots (db : DB) (resId date : Nat) (r : Resource)
    (h : findResource db resId = some r) :
    queryAvailability db resId date =
      .ok { resourceId := r.id, isAvailable := r.isAvailable,
            bookedSlots := bookedList db resId date } ∧
    (bookedList db resId date).Perm
      ((activeBookingsFor db resId date).map (fun b => (b.startTime, b.endTime))) ∧
    (bookedList db resId date).Pairwise (fun x y => x.1 ≤ y.1) := by
  refine ⟨by simp [queryAvailability, h], ?_, ?_⟩
  · exact (List.perm_insertionSort slotOrder _).map _
  · have hs := List.sorted_insertionSort slotOrder (activeBookingsFor db resId date)
    exact List.Pairwise.map _ (fun a b hab => hab) hs

theorem c4_availability_busy_slots_witness :
    queryAvailability c4db 1 0 =
      .ok { resourceId := 1, isAvailable := true,
            bookedSlots := bookedList c4db 1 0 } :=
  (c4_availability_busy_slots c4db 1 0 ⟨1, "Room", true⟩ rfl).1

/-- C5 (amended): cancel fails with `illegalTransition` exactly when the
booking is already `CANCELLED` or `COMPLETED`; on a Pending or Confirmed
booking it succeeds with the booking stored as `CANCELLED` provided the
model validation re-run by `save` passes (date not yet past, resource
available) — otherwise `save` raises instead of succeeding. -/
theorem c5_cancel_characterization (db : DB) (today pk : Nat) (b : Booking)
    (hb : findBooking db pk = some b) :
    (cancelBooking db today pk = .error .illegalTransition ↔
      (b.status = .cancelled ∨ b.status = .completed)) ∧
    (isActive b.status = true →
      clean db today { b with status := .cancelled } = [] →
      cancelBooking db today pk =
        .ok { db with bookings := upsert db.bookings { b with status := .cancelled } } ∧
      findBooking
          { db with bookings := upsert db.bookings { b with status := .cancelled } } pk =
        some { b with status := .cancelled }) ∧
    (isActive b.status = true →
      clean db today { b with status := .cancelled } ≠ [] →
      cancelBooking db today pk =
        .error (.modelValidation (clean db today { b with status := .cancelled }))) := by
  refine ⟨⟨?_, ?_⟩, ?_, ?_⟩
  · intro h
    by_contra hcon
    push_neg at hcon
    have hg : (b.status == Status.cancelled || b.status == Status.completed) = false := by
      simp [hcon.1, hcon.2]
    simp only [cancelBooking, hb, hg, Bool.false_eq_true, if_false, saveExisting] at h
    split_ifs at h
    simp at h
  · intro h
    have hg : (b.status == Status.cancelled || b.status == Status.completed) = true := by
      rcases h with h | h <;> simp [h]
    simp [cancelBooking, hb, hg]
  · intro hact hclean
    have hg : (b.status == Status.cancelled || b.status == Status.completed) = false := by
      cases hs : b.status <;> simp_all [isActive]
    refine ⟨by simp [cancelBooking, hb, hg, saveExisting, hclean], ?_⟩
    exact findBooking_after_upsert hb rfl
  · intro hact hclean
    have hg : (b.status == Status.cancelled || b.status == Status.completed) = false := by
      cases hs : b.status <;> simp_all [isActive]
    have hne : (clean db today { b with status := Status.cancelled }).isEmpty = false := by
      simpa [List.isEmpty_iff] using hclean
    simp [cancelBooking, hb, hg, saveExisting, hne]

theorem c5_cancel_characterization_witness :
    cancelBooking c5db 0 1 =
      .ok { c5db with bookings := upsert c5db.bookings { c5b with status := .cancelled } } ∧
    findBooking
        { c5db with bookings := upsert c5db.bookings { c5b with status := .cancelled } } 1 =
      some { c5b with status := .cancelled } :=
  (c5_cancel_characterization c5db 0 1 c5b rfl).2.1 (by decide) (by decide)

/-- C5 counterexample: a `PENDING` booking whose date has meanwhile passed;
cancel does not succeed — the `full_clean` re-run inside `save` raises the
past-date model validation error instead. -/
theorem c5_cancel_pending_can_fail :
    findBooking c5db 1 = some c5b ∧ c5b.status = .pending ∧
    cancelBooking c5db 11 1 = .error (.modelValidation [CleanError.pastDate]) :=
  ⟨rfl, rfl, rfl⟩

/-- C6: update re-runs the create validations with the booking being updated
excluded from the conflict scan; the serializer's field list fixes resource
and owner; any conflict the scan reports is never the booking itself, and
updating a well-formed active booking to its own unchanged interval
succeeds. -/
theorem c6_update_excludes_self (db : DB) (today pk : Nat) (b : Booking)
    (hb : findBooking db pk = some b) :
    (∀ nd ns ne nn db' b', updateBooking db today pk nd ns ne nn = .ok db' →
      findBooking db' pk = some b' →
      b'.resourceId = b.resourceId ∧ b'.userId = b.userId) ∧
    (∀ d s e, updateBooking db today pk (some d) (some s) (some e) none =
        .ok { db with
              bookings := upsert db.bookings
                { b with bookingDate := d, startTime := s, endTime := e } } ↔
      (s < e ∧ findConflict db b.resourceId d s e (some pk) = none ∧
        clean db today { b with bookingDate := d, startTime := s, endTime := e } = [])) ∧
    (∀ d s e cb, findConflict db b.resourceId d s e (some pk) = some cb → cb.id ≠ pk) ∧
    (noDouble db → isActive b.status = true → b.startTime < b.endTime →
      clean db today b = [] →
      updateBooking db today pk
          (some b.bookingDate) (some b.startTime) (some b.endTime) none =
        .ok { db with bookings := upsert db.bookings b }) := by
  obtain ⟨hbid, hbmem⟩ := findBooking_some hb
  refine ⟨?_, ?_, ?_, ?_⟩
  · intro nd ns ne nn db' b' hok hf'
    simp only [updateBooking, hb] at hok
    split_ifs at hok
    split at hok
    · simp at hok
    · simp only [saveExisting] at hok
      split_ifs at hok
      simp only [Except.ok.injEq] at hok
      subst hok
      have hfb2 := @findBooking_after_upsert db pk b
        { b with bookingDate := nd.getD b.bookingDate,
                 startTime := ns.getD b.startTime,
                 endTime := ne.getD b.endTime,
                 notes := nn.getD b.notes } hb rfl
      rw [hfb2] at hf'
      have hbb := Option.some.inj hf'
      subst hbb
      exact ⟨rfl, rfl⟩
  · intro d s e
    constructor
    · intro hok
      rw [updateBooking_reduce db today pk b hb d s e] at hok
      split_ifs at hok with hif
      refine ⟨by omega, ?_⟩
      cases hc : findConflict db b.resourceId d s e (some pk) with
      | some cb => rw [hc] at hok; simp at hok
      | none =>
        rw [hc] at hok
        simp only [saveExisting] at hok
        split_ifs at hok with hemp
        exact ⟨rfl, by simpa [List.isEmpty_iff] using hemp⟩
    · rintro ⟨h1, h2, h3⟩
      rw [updateBooking_reduce db today pk b hb d s e, if_neg (by omega), h2]
      simp [saveExisting, h3]
  · intro d s e cb hc
    have hp := List.find?_some hc
    simp only [conflictsWith, Bool.and_eq_true, bne_iff_ne, ne_eq] at hp
    exact hp.1.2
  · intro hnd hact hlt hclean
    have hconf : findConflict db b.resourceId b.bookingDate b.startTime b.endTime
        (some pk) = none := by
      apply List.find?_eq_none.mpr
      intro x hx hcw
      simp only [conflictsWith, Bool.and_eq_true, bne_iff_ne, ne_eq, beq_iff_eq] at hcw
      obtain ⟨⟨⟨⟨hxr, hxd⟩, hxa⟩, hxne⟩, hxov⟩ := hcw
      have h2 := hnd b hbmem x hx (fun hc => hxne (by rw [← hc]; exact hbid))
        hxr.symm hxd.symm hact hxa
      rw [h2] at hxov
      exact Bool.false_ne_true hxov
    have heta : ({ b with bookingDate := b.bookingDate, startTime := b.startTime, endTime := b.endTime } : Booking) = b := rfl
    rw [updateBooking_reduce db today pk b hb b.bookingDate b.startTime b.endTime,
        if_neg (by omega), hconf, heta]
    simp [saveExisting, hclean]

theorem c6_update_excludes_self_witness :
    updateBooking c6db 0 1
        (some c6b.bookingDate) (some c6b.startTime) (some c6b.endTime) none =
      .ok { c6db with bookings := upsert c6db.bookings c6b } :=
  (c6_update_excludes_self c6db 0 1 c6b rfl).2.2.2 (by decide) rfl (by decide) rfl

/-- C7 (amended): the stages run in this order — resource existence and the
past-date check at the DRF field stage first, then the object-level checks:
interval sanity, resource availability, and finally the overlap scan; the
error reported is that of the earliest failing stage in THIS order (in
particular a past date masks a bad interval, not the other way round). -/
theorem c7_create_validation_order (db : DB) (today newId uid resId date s e : Nat)
    (notes : String) :
    (findResource db resId = none →
      createBooking db today newId uid resId date s e notes = .error .notFound) ∧
    (∀ r, findResource db resId = some r → date < today →
      createBooking db today newId uid resId date s e notes = .error .pastDate) ∧
    (∀ r, findResource db resId = some r → today ≤ date → e ≤ s →
      createBooking db today newId uid resId date s e notes = .error .invalidInterval) ∧
    (∀ r, findResource db resId = some r → today ≤ date → s < e →
      r.isAvailable = false →
      createBooking db today newId uid resId date s e notes =
        .error .resourceUnavailable) ∧
    (∀ r cb, findResource db resId = some r → today ≤ date → s < e →
      r.isAvailable = true → findConflict db resId date s e none = some cb →
      createBooking db today newId uid resId date s e notes =
        .error (.slotConflict cb.startTime cb.endTime)) := by
  refine ⟨?_, ?_, ?_, ?_, ?_⟩
  · intro h
    simp [createBooking, h]
  · intro r h hd
    simp [createBooking, h, hd]
  · intro r h hd hi
    simp only [createBooking, h]
    rw [if_neg (by omega), if_pos hi]
  · intro r h hd hi ha
    simp only [createBooking, h]
    rw [if_neg (by omega), if_neg (by omega), if_pos (by simp [ha])]
  · intro r cb h hd hi ha hc
    simp only [createBooking, h]
    rw [if_neg (by omega), if_neg (by omega), if_neg (by simp [ha]), hc]

/-- C7 counterexample: a request whose date is past AND whose interval is
inverted is reported as `pastDate`, because the serializer's field-level
date check runs before the object-level interval check — the claim names
the opposite order. -/
theorem c7_pastDate_masks_invalidInterval :
    createBooking c7db 10 2 7 1 5 600 540 "" = .error .pastDate ∧
    BError.pastDate ≠ BError.invalidInterval :=
  ⟨rfl, by decide⟩

theorem c7_create_validation_order_witness :
    createBooking c7db 0 2 7 1 5 600 540 "" = .error .invalidInterval :=
  (c7_create_validation_order c7db 0 2 7 1 5 600 540 "").2.2.1
    ⟨1, "Room", true⟩ rfl (by decide) (by decide)

/-- C8 (amended): the admin status update enforces no transition table —
it never fails with `illegalTransition`, for any source status including
the terminal ones, and writes the requested status and admin notes; but it
is not unconditional: the `full_clean` re-run inside `save` fails the
operation when the booking's date is past or its resource unavailable. -/
theorem c8_setStatus_unguarded (db : DB) (today pk : Nat) (b : Booking)
    (newStatus : Status) (anotes : String) (hb : findBooking db pk = some b) :
    (setStatus db today pk newStatus anotes ≠ .error .illegalTransition) ∧
    ({ b with status := newStatus, adminNotes := anotes } : Booking).status = newStatus ∧
    ({ b with status := newStatus, adminNotes := anotes } : Booking).adminNotes = anotes ∧
    (clean db today { b with status := newStatus, adminNotes := anotes } = [] →
      setStatus db today pk newStatus anotes =
        .ok { db with bookings := upsert db.bookings { b with status := newStatus, adminNotes := anotes } } ∧
      findBooking { db with bookings := upsert db.bookings { b with status := newStatus, adminNotes := anotes } } pk =
        some { b with status := newStatus, adminNotes := anotes }) ∧
    (clean db today { b with status := newStatus, adminNotes := anotes } ≠ [] →
      setStatus db today pk newStatus anotes =
        .error (.modelValidation
          (clean db today { b with status := newStatus, adminNotes := anotes }))) := by
  refine ⟨?_, rfl, rfl, ?_, ?_⟩
  · intro h
    simp only [setStatus, hb, saveExisting] at h
    split_ifs at h
    simp at h
  · intro hclean
    exact ⟨by simp [setStatus, hb, saveExisting, hclean], findBooking_after_upsert hb rfl⟩
  · intro hclean
    have hne : (clean db today { b with status := newStatus, adminNotes := anotes }).isEmpty = false := by
      simpa [List.isEmpty_iff] using hclean
    simp [setStatus, hb, saveExisting, hne]

/-- C8 counterexample: marking a booking `COMPLETED` once its date has
passed fails with the past-date model validation error raised by `save`,
so setStatus does not set the status unconditionally. -/
theorem c8_setStatus_can_fail_model_validation :
    findBooking c8db 1 = some c8b ∧
    setStatus c8db 10 1 .completed ("done") =
      .error (.modelValidation [CleanError.pastDate]) :=
  ⟨rfl, rfl⟩

theorem c8_setStatus_unguarded_witness :
    setStatus c8db 0 1 .completed ("ok") =
      .ok { c8db with bookings := upsert c8db.bookings { c8b with status := .completed, adminNotes := "ok" } } ∧
    findBooking { c8db with bookings := upsert c8db.bookings { c8b with status := .completed, adminNotes := "ok" } } 1 =
      some { c8b with status := .completed, adminNotes := "ok" } :=
  (c8_setStatus_unguarded c8db 0 1 c8b .completed ("ok") rfl).2.2.2.1 rfl

/-- C9 (amended): reads never fail for date reasons — the availability
query returns no past-date or model-validation error — and creation is the
only place the REQUEST date is checked; but mutating operations on an
existing booking re-run the model validation inside `save`, so cancel (and
likewise update and setStatus) on an active booking whose date has passed
fails with the past-date model error rather than succeeding. -/
theorem c9_pastDate_reads_vs_saves :
    (∀ db resId date, queryAvailability db resId date ≠ .error .pastDate ∧
      ∀ errs, queryAvailability db resId date ≠ .error (.modelValidation errs)) ∧
    (∀ db today pk b, findBooking db pk = some b → isActive b.status = true →
      b.bookingDate < today →
      cancelBooking db today pk =
        .error (.modelValidation (clean db today { b with status := .cancelled })) ∧
      CleanError.pastDate ∈ clean db today { b with status := .cancelled }) := by
  constructor
  · intro db resId date
    cases h : findResource db resId with
    | none =>
      exact ⟨by simp [queryAvailability, h], fun errs => by simp [queryAvailability, h]⟩
    | some r =>
      exact ⟨by simp [queryAvailability, h], fun errs => by simp [queryAvailability, h]⟩
  · intro db today pk b hb hact hdate
    have hg : (b.status == Status.cancelled || b.status == Status.completed) = false := by
      cases hs : b.status <;> simp_all [isActive]
    have hmem : CleanError.pastDate ∈ clean db today { b with status := Status.cancelled } := by
      simp [clean, hdate]
    have hne : (clean db today { b with status := Status.cancelled }).isEmpty = false := by
      simpa [List.isEmpty_iff] using List.ne_nil_of_mem hmem
    exact ⟨by simp [cancelBooking, hb, hg, saveExisting, hne], hmem⟩

/-- C9 counterexample: update of an existing booking whose date is now past
— submitting its own unchanged data — fails with the past-date model
validation error, contradicting the claim that no operation on an existing
booking fails for past-date reasons. -/
theorem c9_update_fails_on_past_booking :
    findBooking c9db 1 = some c9b ∧
    updateBooking c9db 1 1 none none none none =
      .error (.modelValidation [CleanError.pastDate]) :=
  ⟨rfl, rfl⟩

theorem c9_pastDate_reads_vs_saves_witness :
    cancelBooking c9db 1 1 =
      .error (.modelValidation (clean c9db 1 { c9b with status := .cancelled })) ∧
    CleanError.pastDate ∈ clean c9db 1 { c9b with status := .cancelled } :=
  c9_pastDate_reads_vs_saves.2 c9db 1 1 c9b rfl rfl (by decide)

/-- C10: every persisting operation routes through `save`, which re-runs the
full model validation; hence whenever create, update, cancel or setStatus
succeeds, the persisted booking has `end_time > start_time`, a booking date
not before the clock value at save time, and an available resource. -/
theorem c10_saved_bookings_validated :
    (∀ db today newId uid resId date s e notes db',
      createBooking db today newId uid resId date s e notes = .ok db' →
      mkBooking newId uid resId date s e notes ∈ db'.bookings ∧
      s < e ∧ today ≤ date ∧ resourceAvailableIn db' resId = true) ∧
    (∀ db today pk nd ns ne nn db' b, findBooking db pk = some b →
      updateBooking db today pk nd ns ne nn = .ok db' →
      ({ b with bookingDate := nd.getD b.bookingDate, startTime := ns.getD b.startTime, endTime := ne.getD b.endTime, notes := nn.getD b.notes } : Booking) ∈ db'.bookings ∧
      ns.getD b.startTime < ne.getD b.endTime ∧
      today ≤ nd.getD b.bookingDate ∧
      resourceAvailableIn db' b.resourceId = true) ∧
    (∀ db today pk db' b, findBooking db pk = some b →
      cancelBooking db today pk = .ok db' →
      ({ b with status := Status.cancelled } : Booking) ∈ db'.bookings ∧
      b.startTime < b.endTime ∧ today ≤ b.bookingDate ∧
      resourceAvailableIn db' b.resourceId = true) ∧
    (∀ db today pk st an db' b, findBooking db pk = some b →
      setStatus db today pk st an = .ok db' →
      ({ b with status := st, adminNotes := an } : Booking) ∈ db'.bookings ∧
      b.startTime < b.endTime ∧ today ≤ b.bookingDate ∧
      resourceAvailableIn db' b.resourceId = true) := by
  refine ⟨?_, ?_, ?_, ?_⟩
  · intro db today newId uid resId date s e notes db' hok
    cases hres : findResource db resId with
    | none => simp [createBooking, hres] at hok
    | some r =>
      simp only [createBooking, hres] at hok
      split_ifs at hok with hd hi ha
      cases hconf : findConflict db resId date s e none with
      | some cb => rw [hconf] at hok; simp at hok
      | none =>
        rw [hconf] at hok
        simp only [saveNew] at hok
        split_ifs at hok with hemp
        have hclean : clean db today (mkBooking newId uid resId date s e notes) = [] := by
          simpa [List.isEmpty_iff] using hemp
        obtain ⟨h1, h2, h3⟩ := (clean_nil_iff db today _).mp hclean
        simp only [Except.ok.injEq] at hok
        subst hok
        refine ⟨by simp, by simpa [mkBooking] using h1, by simpa [mkBooking] using h2, ?_⟩
        simpa [mkBooking] using h3
  · intro db today pk nd ns ne nn db' b hb hok
    obtain ⟨hbid, hbmem⟩ := findBooking_some hb
    simp only [updateBooking, hb] at hok
    split_ifs at hok
    split at hok
    · simp at hok
    · simp only [saveExisting] at hok
      split_ifs at hok with hemp
      have hclean := (List.isEmpty_iff).mp hemp
      obtain ⟨h1, h2, h3⟩ := (clean_nil_iff db today _).mp hclean
      simp only [Except.ok.injEq] at hok
      subst hok
      exact ⟨self_mem_upsert hbmem rfl, by simpa using h1, by simpa using h2,
        by simpa using h3⟩
  · intro db today pk db' b hb hok
    obtain ⟨hbid, hbmem⟩ := findBooking_some hb
    simp only [cancelBooking, hb] at hok
    split_ifs at hok
    simp only [saveExisting] at hok
    split_ifs at hok with hemp
    have hclean := (List.isEmpty_iff).mp hemp
    obtain ⟨h1, h2, h3⟩ := (clean_nil_iff db today _).mp hclean
    simp only [Except.ok.injEq] at hok
    subst hok
    exact ⟨self_mem_upsert hbmem rfl, by simpa using h1, by simpa using h2,
      by simpa using h3⟩
  · intro db today pk st an db' b hb hok
    obtain ⟨hbid, hbmem⟩ := findBooking_some hb
    simp only [setStatus, hb] at hok
    simp only [saveExisting] at hok
    split_ifs at hok with hemp
    have hclean := (List.isEmpty_iff).mp hemp
    obtain ⟨h1, h2, h3⟩ := (clean_nil_iff db today _).mp hclean
    simp only [Except.ok.injEq] at hok
    subst hok
    exact ⟨self_mem_upsert hbmem rfl, by simpa using h1, by simpa using h2,
      by simpa using h3⟩

theorem c10_saved_bookings_validated_witness :
    mkBooking 1 7 1 2 540 600 "" ∈
      (DB.mk [⟨1, "Room", true⟩] [mkBooking 1 7 1 2 540 600 ""]).bookings ∧
    540 < 600 ∧ 0 ≤ 2 ∧
    resourceAvailableIn (DB.mk [⟨1, "Room", true⟩] [mkBooking 1 7 1 2 540 600 ""]) 1 = true :=
  c10_saved_bookings_validated.1 c10db 0 1 7 1 2 540 600 ""
    (DB.mk [⟨1, "Room", true⟩] [mkBooking 1 7 1 2 540 600 ""]) rfl

end BookingEngine
